import Mathlib

/-!
Verification of the jewel-image extraction utilities.

URLs and attribute values are modelled as lists of characters.  An HTML
document is modelled as the parsed gallery structure the scripts inspect:
a sequence of candidate containers (tag, id) in document order, each
holding its img descendants with their src, d-src and srcset attributes.
A missing attribute is `none`; Python string truthiness (the empty string
is false) is made explicit at each use site.

Namespaces mirror the source files:
* `Root`   — extraction_dynamic.py (repository root)
* `EE`     — ExtractionEngine/extraction_dynamic.py
* `Ivan`   — Img Extraction Engine/Ivan/Temp/extraction.py
* `Legacy` — extraction.py (repository root)
-/

abbrev Str := List Char

/-- Model of Python `a.startswith(b)`: `isPre p s` is true iff `p` is an
initial segment of `s`. -/
def isPre : Str → Str → Bool
  | [], _ => true
  | _ :: _, [] => false
  | p :: ps, q :: qs => if p = q then isPre ps qs else false

/-- Model of Python `s.lower()` (character-wise lowering). -/
def lowerStr (u : Str) : Str := u.map Char.toLower

/-- Model of Python `s.find(pat)`: index of the leftmost occurrence of
`pat` as a contiguous substring of `s`, `none` when absent. -/
def findSub (pat : Str) : Str → Option Nat
  | [] => if isPre pat [] then some 0 else none
  | c :: t => if isPre pat (c :: t) then some 0 else (findSub pat t).map (· + 1)

/-- Model of Python `int(s)` for a string of decimal digits. -/
def digitsToNat (l : Str) : Nat := l.foldl (fun n c => n * 10 + (c.toNat - 48)) 0

/-- Model of Python `s.split(sep)` for a one-character separator
(keeps empty fields, `"".split(sep) = [""]`). -/
def splitOnChar (sep : Char) : Str → List Str
  | [] => [[]]
  | c :: t =>
    if c = sep then [] :: splitOnChar sep t
    else
      match splitOnChar sep t with
      | [] => [[c]]
      | h :: r => (c :: h) :: r

/-- Model of Python `s.strip()`. -/
def stripWs (s : Str) : Str :=
  ((s.dropWhile Char.isWhitespace).reverse.dropWhile Char.isWhitespace).reverse

/-- Worker for `splitWs`; `cur` accumulates the current token reversed. -/
def splitWsGo : Str → Str → List Str
  | [], cur => if cur = [] then [] else [cur.reverse]
  | c :: t, cur =>
    if c.isWhitespace then
      if cur = [] then splitWsGo t [] else cur.reverse :: splitWsGo t []
    else splitWsGo t (c :: cur)

/-- Model of Python `s.split()` (split on whitespace runs, no empties). -/
def splitWs (s : Str) : List Str := splitWsGo s []

/-- Index of the first occurrence of `a` in `l` (length of `l` when absent);
used to state first-seen ordering of deduplicated output. -/
def firstIdx : List Str → Str → Nat
  | [], _ => 0
  | b :: t, a => if b = a then 0 else firstIdx t a + 1

/-- An img element with the three attributes the scripts read. -/
structure Img where
  src : Option Str
  dSrc : Option Str
  srcset : Option Str
deriving DecidableEq

/-- A candidate gallery container with its img descendants in document
order. -/
structure Container where
  tag : Str
  id : Str
  imgs : List Img
deriving DecidableEq

/-- A document is its sequence of candidate containers in document order. -/
abbrev Doc := List Container

/-- Model of `soup.find(tag, id=cid)`: first container matching both. -/
def findContainer (doc : Doc) (tag cid : Str) : Option Container :=
  doc.find? (fun c => decide (c.tag = tag ∧ c.id = cid))

/-- Model of `soup.find(id=cid)`: first container with the given id. -/
def findById (doc : Doc) (cid : Str) : Option Container :=
  doc.find? (fun c => decide (c.id = cid))

namespace Root

/-- `normalize` from extraction_dynamic.py: prefix protocol-relative URLs
with the secure scheme, leave everything else unchanged. -/
def normalize (u : Str) : Str :=
  if isPre ("//".toList) u then ("https:".toList) ++ u else u

/-- `strip_to_jpg` from extraction_dynamic.py: cut right after the first
case-insensitive occurrence of `.jpg`; if absent, return the input. -/
def strip_to_jpg (u : Str) : Str :=
  match findSub (".jpg".toList) (lowerStr u) with
  | some i => u.take (i + 4)
  | none => u

/-- The `src`-only fallback branch of the candidate rules. -/
def fallbackSrc : Option Str → List Str
  | some s => if s ≠ [] ∧ isPre ("data:".toList) s = false then [s] else []
  | none => []

/-- The optional extra `src` candidate kept in collect-both mode when it
is usable and differs from the preferred `d-src`. -/
def bothSrc (include_both : Bool) (d : Str) : Option Str → List Str
  | some s =>
    if include_both = true ∧ s ≠ [] ∧ isPre ("data:".toList) s = false ∧ s ≠ d then
      [s]
    else []
  | none => []

/-- The per-img candidate list of `extract_image_srcs`: prefer a usable
`d-src`, optionally also keep a differing usable `src`, else fall back to
`src`; data URIs are never candidates. -/
def candidatesOf (include_both : Bool) (img : Img) : List Str :=
  match img.dSrc with
  | some d =>
    if d ≠ [] ∧ isPre ("data:".toList) d = false then
      [d] ++ bothSrc include_both d img.src
    else fallbackSrc img.src
  | none => fallbackSrc img.src

/-- Canonicalization applied to each candidate inside the loop. -/
def keyOf (c : Str) : Str := strip_to_jpg (normalize c)

/-- One step of the `seen`/`collected` deduplication loop. -/
def dedupStep (st : List Str × List Str) (b : Str) : List Str × List Str :=
  if b ∈ st.2 then st else (st.1 ++ [b], b :: st.2)

/-- `extract_image_srcs` from extraction_dynamic.py (pure core: the parsed
container lookup plus the candidate/deduplication loop). -/
def extract_image_srcs (doc : Doc) (tag cid : Str) (include_both : Bool) : List Str :=
  match findContainer doc tag cid with
  | none => []
  | some c =>
    ((c.imgs.flatMap (candidatesOf include_both)).foldl
      (fun st cand => dedupStep st (keyOf cand)) ([], [])).1

/-- The canonical keys in document-scan order (before deduplication), as
computed candidate-by-candidate by the loop of `extract_image_srcs`. -/
def keyStream (doc : Doc) (tag cid : Str) (include_both : Bool) : List Str :=
  match findContainer doc tag cid with
  | none => []
  | some c => (c.imgs.flatMap (candidatesOf include_both)).map keyOf

end Root

namespace EE

/-- `strip_to_jpg` from ExtractionEngine/extraction_dynamic.py: cut right
after the earlier of the first case-insensitive `.jpg` / `.png`
occurrence; if neither occurs, return the input. -/
def strip_to_jpg (u : Str) : Str :=
  let l := lowerStr u
  match findSub (".jpg".toList) l, findSub (".png".toList) l with
  | some i, some j => u.take (min i j + 4)
  | some i, none => u.take (i + 4)
  | none, some j => u.take (j + 4)
  | none, none => u

end EE

namespace Ivan

/-- `normalize_url` from Ivan/Temp/extraction.py (same rule as
`Root.normalize`). -/
def normalize_url (u : Str) : Str :=
  if isPre ("//".toList) u then ("https:".toList) ++ u else u

/-- `base_jpg` from Ivan/Temp/extraction.py: cut right after the first
occurrence of `.jpg` (case-sensitive regex search); if absent, return the
input. -/
def base_jpg (u : Str) : Str :=
  match findSub (".jpg".toList) u with
  | some i => u.take (i + 4)
  | none => u

/-- The leftmost `[?&]width=(digits)` match in a URL, as searched by the
regex in `parse_width`; yields the digit-run value. -/
def queryWidth : Str → Option Nat
  | [] => none
  | c :: t =>
    if (c = '?' ∨ c = '&') ∧ isPre ("width=".toList) t = true ∧
        (t.drop 6).takeWhile Char.isDigit ≠ [] then
      some (digitsToNat ((t.drop 6).takeWhile Char.isDigit))
    else queryWidth t

/-- `parse_width` from Ivan/Temp/extraction.py: a `<digits>w` descriptor
wins; else the first `width=` query parameter of the URL; else 0. -/
def parse_width (url : Str) (descriptor : Option Str) : Nat :=
  match descriptor with
  | some d =>
    if d ≠ [] ∧ d.getLast? = some 'w' ∧ d.dropLast ≠ [] ∧
        d.dropLast.all Char.isDigit then
      digitsToNat d.dropLast
    else
      match queryWidth url with
      | some n => n
      | none => 0
  | none =>
    match queryWidth url with
    | some n => n
    | none => 0

/-- The srcset entries scanned by the loops of extraction.py: split on
commas, strip, skip empties, take the first token as (normalized) URL and
the second as width descriptor, then parse the width. -/
def parseEntries (srcset : Str) : List (Str × Nat) :=
  (splitOnChar ',' srcset).filterMap (fun part =>
    let p := stripWs part
    if p = [] then none
    else
      let pieces := splitWs p
      let url := normalize_url (pieces.headD [])
      some (url, parse_width url pieces[1]?))

/-- The `chosen_full` / `max_w` selection loop over srcset entries:
a candidate replaces the current best only on strictly greater width. -/
def chooseLoop : Option Str → Int → List (Str × Nat) → Option Str × Int
  | ch, mw, [] => (ch, mw)
  | ch, mw, (u, w) :: rest =>
    if (w : Int) > mw then chooseLoop (some u) (w : Int) rest
    else chooseLoop ch mw rest

/-- The responsive-variant resolver applied to one srcset attribute value
(the srcset part of the selection loop, started from `(None, -1)`). -/
def ivanChoose (srcset : Str) : Option Str :=
  (chooseLoop none (-1) (parseEntries srcset)).1

/-- Per-img choice in `process_html` / `extract_all_image_urls`: srcset
winner if any entry was parsed, else the (normalized) plain `src`. -/
def imgChoose (img : Img) : Option Str × Int :=
  let s0 : Option Str × Int := (none, -1)
  let s1 :=
    match img.srcset with
    | some ss => if ss ≠ [] then chooseLoop none (-1) (parseEntries ss) else s0
    | none => s0
  match s1.1 with
  | some _ => s1
  | none =>
    match img.src with
    | some s => if s ≠ [] then (some (normalize_url s), s1.2) else s1
    | none => s1

/-- One audit-log event of extraction.py's `log_event` (the wall-clock
timestamp field is outside the model; absent fields default to empty, as
in the source). -/
structure Event where
  stage : Str
  pageUrl : Str
  imageBase : Str
  imageFull : Str
  status : Str
  note : Str
deriving DecidableEq

/-- `log_event`: build one pipe-delimited audit record. -/
def logEvent (stage pageUrl : Str) (imageBase imageFull status note : Option Str) : Event :=
  ⟨stage, pageUrl, imageBase.getD [], imageFull.getD [], status.getD [], note.getD []⟩

/-- The `width=...` note attached to an `image_selected` event. -/
def widthNote (mw : Int) : Str :=
  ("width=".toList) ++ (if mw = -1 then ("src".toList) else (toString mw).toList)

/-- One iteration of `process_html`'s img loop: choose a URL, skip empty
choices, canonicalize with `base_jpg`, deduplicate first-seen, log the
selection. -/
def processStep (pageUrl : Str) (st : List Str × List Str × List Event) (img : Img) :
    List Str × List Str × List Event :=
  let (ub, seen, evs) := st
  let (chosenOpt, maxw) := imgChoose img
  match chosenOpt with
  | none => st
  | some cu =>
    if cu = [] then st
    else
      let b := base_jpg cu
      if b ∈ seen then st
      else
        (ub ++ [b], b :: seen,
          evs ++ [logEvent ("image_selected".toList) pageUrl (some b) (some cu)
            (some ("selected".toList)) (some (widthNote maxw))])

/-- `process_html` from Ivan/Temp/extraction.py (extraction part, i.e.
`download=False`): returns the unique base URLs and the audit events in
order. -/
def processHtml (doc : Doc) (pageUrl : Str) : List Str × List Event :=
  match findById doc ("Product-Slider".toList) with
  | none =>
    ([], [logEvent ("slider_missing".toList) pageUrl none none
      (some ("no_slider".toList)) (some ("Product-Slider element not found".toList))])
  | some slider =>
    let res := slider.imgs.foldl (processStep pageUrl)
      ([], [], [logEvent ("slider_found".toList) pageUrl none none (some ("ok".toList)) none])
    (res.1, res.2.2 ++ [logEvent ("extraction_complete".toList) pageUrl none none
      (some ("count".toList)) (some (("images=".toList) ++ (toString res.1.length).toList))])

/-- An HTTP response as far as the download loop inspects it. -/
structure Resp where
  status : Nat
  contentType : Str
  size : Nat
deriving DecidableEq

/-- The two outcome fields of one download attempt that the claims are
about. -/
structure DownloadOutcome where
  succeeded : Bool
  usedFallback : Bool
deriving DecidableEq

/-- The scheme fix-up applied before each GET in the download loop. -/
def httpify (u : Str) : Str :=
  if isPre ("http".toList) u then u
  else if isPre ("//".toList) u then ("https:".toList) ++ u
  else u

/-- The condition under which the download loop abandons the base URL and
retries the original query-preserving URL. -/
def validationFails (r : Resp) : Bool :=
  decide (r.status = 404) || !(isPre ("image".toList) r.contentType) || decide (r.size < 500)

/-- One image download of `process_html`'s download loop, over a network
oracle `fetch`: fetch the base URL, on failed validation retry once
against the original query-preserving URL when it differs, then apply
`raise_for_status` and the final content-type check. -/
def downloadAttempt (fetch : Str → Resp) (b originalFull : Str) : DownloadOutcome :=
  let base_url := httpify b
  let r1 := fetch base_url
  let st :=
    if validationFails r1 = true then
      if originalFull ≠ base_url then (fetch (httpify originalFull), true)
      else (r1, false)
    else (r1, false)
  let r := st.1
  let ok :=
    if 400 ≤ r.status ∧ r.status < 600 then false
    else isPre ("image".toList) r.contentType
  ⟨ok, st.2⟩

end Ivan

namespace Legacy

/-- The per-img collection of extraction.py: append the (protocol-fixed)
`src`, then every srcset entry's first space-separated field. -/
def collectImg (acc : List Str) (img : Img) : List Str :=
  let acc1 :=
    match img.src with
    | some s => if s ≠ [] then acc ++ [Root.normalize s] else acc
    | none => acc
  match img.srcset with
  | some ss =>
    if ss ≠ [] then
      acc1 ++ (splitOnChar ',' ss).map
        (fun part => Root.normalize ((splitOnChar ' ' (stripWs part)).headD []))
    else acc1
  | none => acc1

/-- `image_urls` as accumulated by the module-level code of extraction.py
(the later download loop iterates `set(image_urls)`, not this list). -/
def image_urls (doc : Doc) : List Str :=
  match findById doc ("Product-Slider".toList) with
  | none => []
  | some ps => ps.imgs.foldl collectImg []

end Legacy

/-- Claim-side canonical-key extractor, following the spec's wording (not
the source): find the first case-insensitive occurrence of any of the
seven recognized extensions and truncate immediately after it; otherwise
return the URL unchanged. -/
def claimCanonicalKey (u : Str) : Str :=
  let l := lowerStr u
  let occs := ([".jpg", ".jpeg", ".png", ".webp", ".gif", ".bmp", ".tiff"].map
    String.toList).filterMap (fun e => (findSub e l).map (fun i => (i, e.length)))
  match occs.foldl
      (fun best o =>
        match best with
        | none => some o
        | some b => if o.1 < b.1 then some o else some b) none with
  | some (i, n) => u.take (i + n)
  | none => u

theorem ipo_of_take {p s : Str} {m : Nat} (h : isPre p (s.take m) = true) :
    isPre p s = true := by
  induction s generalizing p m with
  | nil => simpa using h
  | cons b t ih =>
    cases p with
    | nil => rfl
    | cons a ps =>
      cases m with
      | zero => simp [isPre] at h
      | succ m =>
        simp only [List.take_succ_cons] at h
        simp only [isPre] at h ⊢
        by_cases hab : a = b
        · rw [if_pos hab] at h ⊢
          exact ih h
        · rw [if_neg hab] at h
          exact absurd h (by simp)

theorem ipo_take {p s : Str} {m : Nat} (hm : p.length ≤ m) (h : isPre p s = true) :
    isPre p (s.take m) = true := by
  induction p generalizing s m with
  | nil => rfl
  | cons a ps ih =>
    cases s with
    | nil => simp [isPre] at h
    | cons b t =>
      cases m with
      | zero => simp at hm
      | succ m =>
        simp only [List.take_succ_cons]
        simp only [isPre] at h ⊢
        by_cases hab : a = b
        · rw [if_pos hab] at h ⊢
          refine ih ?_ h
          simp only [List.length_cons] at hm
          omega
        · rw [if_neg hab] at h
          exact absurd h (by simp)

theorem ipo_take_self (s : Str) (n : Nat) : isPre (s.take n) s = true := by
  induction s generalizing n with
  | nil => simp [isPre]
  | cons b t ih =>
    cases n with
    | zero => rfl
    | succ n => simp [isPre, ih n]

theorem ipo_refl (s : Str) : isPre s s = true := by
  have h := ipo_take_self s s.length
  rwa [List.take_length] at h

theorem findSub_some {pat : Str} :
    ∀ {s : Str} {i : Nat}, findSub pat s = some i →
      isPre pat (s.drop i) = true ∧ ∀ j, j < i → isPre pat (s.drop j) = false := by
  intro s
  induction s with
  | nil =>
    intro i h
    simp only [findSub] at h
    split at h
    · next hp =>
      cases h
      exact ⟨by simpa using hp, by intro j hj; omega⟩
    · cases h
  | cons c t ih =>
    intro i h
    simp only [findSub] at h
    split at h
    · next hp =>
      cases h
      exact ⟨by simpa using hp, by intro j hj; omega⟩
    · next hp =>
      cases hft : findSub pat t with
      | none => rw [hft] at h; simp at h
      | some k =>
        rw [hft] at h
        simp at h
        subst h
        obtain ⟨h1, h2⟩ := ih hft
        constructor
        · simpa using h1
        · intro j hj
          cases j with
          | zero =>
            simpa using (by simpa using hp : isPre pat (c :: t) = false)
          | succ j' =>
            have := h2 j' (by omega)
            simpa using this

theorem findSub_none {pat : Str} :
    ∀ {s : Str}, findSub pat s = none → ∀ j, isPre pat (s.drop j) = false := by
  intro s
  induction s with
  | nil =>
    intro h j
    simp only [findSub] at h
    split at h
    · cases h
    · next hp => simpa using (by simpa using hp : isPre pat [] = false)
  | cons c t ih =>
    intro h j
    simp only [findSub] at h
    split at h
    · cases h
    · next hp =>
      cases hft : findSub pat t with
      | some k => rw [hft] at h; simp at h
      | none =>
        cases j with
        | zero => simpa using hp
        | succ j' => simpa using ih hft j'

theorem findSub_eq_some_of {pat s : Str} {i : Nat}
    (h1 : isPre pat (s.drop i) = true)
    (h2 : ∀ j, j < i → isPre pat (s.drop j) = false) :
    findSub pat s = some i := by
  cases hf : findSub pat s with
  | none => exact absurd h1 (by simp [findSub_none hf i])
  | some k =>
    obtain ⟨hk1, hk2⟩ := findSub_some hf
    congr 1
    by_contra hne
    rcases Nat.lt_or_ge k i with hlt | hge
    · exact absurd hk1 (by simp [h2 k hlt])
    · have hik : i < k := by omega
      exact absurd h1 (by simp [hk2 i hik])

theorem take_drop_comm : ∀ (s : Str) (i m : Nat),
    (s.take m).drop i = (s.drop i).take (m - i) := by
  intro s
  induction s with
  | nil => intro i m; simp
  | cons c t ih =>
    intro i m
    cases i with
    | zero => simp
    | succ i' =>
      cases m with
      | zero => simp
      | succ m' =>
        simp only [List.take_succ_cons, List.drop_succ_cons, Nat.succ_sub_succ]
        exact ih i' m'

theorem occ_of_take {pat s : Str} {j m : Nat}
    (h : isPre pat ((s.take m).drop j) = true) : isPre pat (s.drop j) = true := by
  rw [take_drop_comm] at h
  exact ipo_of_take h

theorem findSub_take {pat s : Str} {i m : Nat} (h : findSub pat s = some i)
    (hm : i + pat.length ≤ m) : findSub pat (s.take m) = some i := by
  obtain ⟨h1, h2⟩ := findSub_some h
  apply findSub_eq_some_of
  · rw [take_drop_comm]
    exact ipo_take (by omega) h1
  · intro j hj
    cases hp : isPre pat ((s.take m).drop j) with
    | false => rfl
    | true => exact absurd (occ_of_take hp) (by simp [h2 j hj])

theorem findSub_take_none {pat s : Str} {m : Nat} (h : findSub pat s = none) :
    findSub pat (s.take m) = none := by
  cases hf : findSub pat (s.take m) with
  | none => rfl
  | some j =>
    have hocc := occ_of_take (findSub_some hf).1
    exact absurd hocc (by simp [findSub_none h j])

theorem findSub_take_ge {pat s : Str} {m j k : Nat} (hs : findSub pat s = some j)
    (hf : findSub pat (s.take m) = some k) : j ≤ k := by
  have hocc := occ_of_take (findSub_some hf).1
  by_contra hlt
  exact absurd hocc (by simp [(findSub_some hs).2 k (by omega)])

theorem lowerStr_take (u : Str) (n : Nat) :
    lowerStr (u.take n) = (lowerStr u).take n := by
  simp [lowerStr, List.map_take]

theorem strip_eq_of_some {u : Str} {i : Nat}
    (h : findSub (".jpg".toList) (lowerStr u) = some i) :
    Root.strip_to_jpg u = u.take (i + 4) := by
  unfold Root.strip_to_jpg
  rw [h]

theorem strip_eq_of_none {u : Str}
    (h : findSub (".jpg".toList) (lowerStr u) = none) :
    Root.strip_to_jpg u = u := by
  unfold Root.strip_to_jpg
  rw [h]

theorem base_eq_of_some {u : Str} {i : Nat}
    (h : findSub (".jpg".toList) u = some i) :
    Ivan.base_jpg u = u.take (i + 4) := by
  unfold Ivan.base_jpg
  rw [h]

theorem base_eq_of_none {u : Str}
    (h : findSub (".jpg".toList) u = none) :
    Ivan.base_jpg u = u := by
  unfold Ivan.base_jpg
  rw [h]

theorem strip_to_jpg_idem (u : Str) :
    Root.strip_to_jpg (Root.strip_to_jpg u) = Root.strip_to_jpg u := by
  cases hf : findSub (".jpg".toList) (lowerStr u) with
  | none => rw [strip_eq_of_none hf, strip_eq_of_none hf]
  | some i =>
    rw [strip_eq_of_some hf]
    have hf2 : findSub (".jpg".toList) (lowerStr (u.take (i + 4))) = some i := by
      rw [lowerStr_take]
      exact findSub_take hf (by norm_num)
    rw [strip_eq_of_some hf2, List.take_take, Nat.min_self]

theorem base_jpg_idem (u : Str) :
    Ivan.base_jpg (Ivan.base_jpg u) = Ivan.base_jpg u := by
  cases hf : findSub (".jpg".toList) u with
  | none => rw [base_eq_of_none hf, base_eq_of_none hf]
  | some i =>
    rw [base_eq_of_some hf]
    have hf2 : findSub (".jpg".toList) (u.take (i + 4)) = some i :=
      findSub_take hf (by norm_num)
    rw [base_eq_of_some hf2, List.take_take, Nat.min_self]

theorem EE_eq_both {u : Str} {i j : Nat}
    (hj : findSub (".jpg".toList) (lowerStr u) = some i)
    (hp : findSub (".png".toList) (lowerStr u) = some j) :
    EE.strip_to_jpg u = u.take (min i j + 4) := by
  simp only [EE.strip_to_jpg]
  rw [hj, hp]

theorem EE_eq_jpg {u : Str} {i : Nat}
    (hj : findSub (".jpg".toList) (lowerStr u) = some i)
    (hp : findSub (".png".toList) (lowerStr u) = none) :
    EE.strip_to_jpg u = u.take (i + 4) := by
  simp only [EE.strip_to_jpg]
  rw [hj, hp]

theorem EE_eq_png {u : Str} {j : Nat}
    (hj : findSub (".jpg".toList) (lowerStr u) = none)
    (hp : findSub (".png".toList) (lowerStr u) = some j) :
    EE.strip_to_jpg u = u.take (j + 4) := by
  simp only [EE.strip_to_jpg]
  rw [hj, hp]

theorem EE_eq_none {u : Str}
    (hj : findSub (".jpg".toList) (lowerStr u) = none)
    (hp : findSub (".png".toList) (lowerStr u) = none) :
    EE.strip_to_jpg u = u := by
  simp only [EE.strip_to_jpg]
  rw [hj, hp]

theorem EE_strip_cases (u : Str) :
    (∃ n, EE.strip_to_jpg u = u.take n) ∨ EE.strip_to_jpg u = u := by
  cases hj : findSub (".jpg".toList) (lowerStr u) with
  | none =>
    cases hp : findSub (".png".toList) (lowerStr u) with
    | none => exact Or.inr (EE_eq_none hj hp)
    | some j => exact Or.inl ⟨j + 4, EE_eq_png hj hp⟩
  | some i =>
    cases hp : findSub (".png".toList) (lowerStr u) with
    | none => exact Or.inl ⟨i + 4, EE_eq_jpg hj hp⟩
    | some j => exact Or.inl ⟨min i j + 4, EE_eq_both hj hp⟩

theorem EE_strip_idem (u : Str) :
    EE.strip_to_jpg (EE.strip_to_jpg u) = EE.strip_to_jpg u := by
  cases hj : findSub (".jpg".toList) (lowerStr u) with
  | none =>
    cases hp : findSub (".png".toList) (lowerStr u) with
    | none =>
      rw [EE_eq_none hj hp, EE_eq_none hj hp]
    | some j =>
      rw [EE_eq_png hj hp]
      have hp2 : findSub (".png".toList) (lowerStr (u.take (j + 4))) = some j := by
        rw [lowerStr_take]
        exact findSub_take hp (by norm_num)
      have hj2 : findSub (".jpg".toList) (lowerStr (u.take (j + 4))) = none := by
        rw [lowerStr_take]
        exact findSub_take_none hj
      rw [EE_eq_png hj2 hp2, List.take_take, Nat.min_self]
  | some i =>
    cases hp : findSub (".png".toList) (lowerStr u) with
    | none =>
      rw [EE_eq_jpg hj hp]
      have hj2 : findSub (".jpg".toList) (lowerStr (u.take (i + 4))) = some i := by
        rw [lowerStr_take]
        exact findSub_take hj (by norm_num)
      have hp2 : findSub (".png".toList) (lowerStr (u.take (i + 4))) = none := by
        rw [lowerStr_take]
        exact findSub_take_none hp
      rw [EE_eq_jpg hj2 hp2, List.take_take, Nat.min_self]
    | some j =>
      rcases Nat.le_total i j with hij | hji
      · rw [EE_eq_both hj hp, Nat.min_eq_left hij]
        have hj2 : findSub (".jpg".toList) (lowerStr (u.take (i + 4))) = some i := by
          rw [lowerStr_take]
          exact findSub_take hj (by norm_num)
        cases hp2 : findSub (".png".toList) (lowerStr (u.take (i + 4))) with
        | none => rw [EE_eq_jpg hj2 hp2, List.take_take, Nat.min_self]
        | some k =>
          have hk : j ≤ k := by
            rw [lowerStr_take] at hp2
            exact findSub_take_ge hp hp2
          rw [EE_eq_both hj2 hp2, Nat.min_eq_left (by omega : i ≤ k), List.take_take,
            Nat.min_self]
      · rw [EE_eq_both hj hp, Nat.min_eq_right hji]
        have hp2 : findSub (".png".toList) (lowerStr (u.take (j + 4))) = some j := by
          rw [lowerStr_take]
          exact findSub_take hp (by norm_num)
        cases hj2 : findSub (".jpg".toList) (lowerStr (u.take (j + 4))) with
        | none => rw [EE_eq_png hj2 hp2, List.take_take, Nat.min_self]
        | some k =>
          have hk : i ≤ k := by
            rw [lowerStr_take] at hj2
            exact findSub_take_ge hj hj2
          rw [EE_eq_both hj2 hp2, Nat.min_eq_right (by omega : j ≤ k), List.take_take,
            Nat.min_self]

/-- C10: each canonical-key extractor only ever drops a suffix (its result
is a prefix of its input as tested by `isPre`) and is idempotent; this
holds for `strip_to_jpg` of extraction_dynamic.py, `base_jpg` of
Ivan/Temp/extraction.py, and the two-extension `strip_to_jpg` of
ExtractionEngine/extraction_dynamic.py. -/
theorem C10_thm (u : Str) :
    (isPre (Root.strip_to_jpg u) u = true ∧
      Root.strip_to_jpg (Root.strip_to_jpg u) = Root.strip_to_jpg u) ∧
    (isPre (Ivan.base_jpg u) u = true ∧
      Ivan.base_jpg (Ivan.base_jpg u) = Ivan.base_jpg u) ∧
    (isPre (EE.strip_to_jpg u) u = true ∧
      EE.strip_to_jpg (EE.strip_to_jpg u) = EE.strip_to_jpg u) := by
  refine ⟨⟨?_, strip_to_jpg_idem u⟩, ⟨?_, base_jpg_idem u⟩, ⟨?_, EE_strip_idem u⟩⟩
  · cases hf : findSub (".jpg".toList) (lowerStr u) with
    | none => rw [strip_eq_of_none hf]; exact ipo_refl u
    | some i => rw [strip_eq_of_some hf]; exact ipo_take_self u (i + 4)
  · cases hf : findSub (".jpg".toList) u with
    | none => rw [base_eq_of_none hf]; exact ipo_refl u
    | some i => rw [base_eq_of_some hf]; exact ipo_take_self u (i + 4)
  · rcases EE_strip_cases u with ⟨n, hn⟩ | hu
    · rw [hn]; exact ipo_take_self u n
    · rw [hu]; exact ipo_refl u

/-- C2 counterexample: the claim predicts truncation after any of the
seven recognized extensions, but `strip_to_jpg` of extraction_dynamic.py
leaves a `.png` URL (and hence its query string) untouched, so the claimed
key differs from the computed one at `a.png?v=1`. -/
theorem C2_counterexample :
    Root.strip_to_jpg ("a.png?v=1".toList) = ("a.png?v=1".toList) ∧
    claimCanonicalKey ("a.png?v=1".toList) = ("a.png".toList) ∧
    ("a.png?v=1".toList) ≠ ("a.png".toList) := by decide

/-- C2 amended: `strip_to_jpg` of extraction_dynamic.py recognizes only
`.jpg` (case-insensitively): it returns the URL truncated immediately
after the first occurrence of `.jpg` in the lowercased URL, and returns
the URL unchanged when `.jpg` does not occur; the ExtractionEngine variant
additionally recognizes `.png`, as at `a.png?v=1`. -/
theorem C2_amended_thm (u : Str) :
    (∀ i, isPre (".jpg".toList) ((lowerStr u).drop i) = true →
      (∀ j, j < i → isPre (".jpg".toList) ((lowerStr u).drop j) = false) →
      Root.strip_to_jpg u = u.take (i + 4)) ∧
    ((∀ j, isPre (".jpg".toList) ((lowerStr u).drop j) = false) →
      Root.strip_to_jpg u = u) ∧
    EE.strip_to_jpg ("a.png?v=1".toList) = ("a.png".toList) := by
  refine ⟨?_, ?_, by decide⟩
  · intro i h1 h2
    exact strip_eq_of_some (findSub_eq_some_of h1 h2)
  · intro hall
    cases hf : findSub (".jpg".toList) (lowerStr u) with
    | none => exact strip_eq_of_none hf
    | some k =>
      have h1 := (findSub_some hf).1
      rw [hall k] at h1
      simp at h1

/-- C2 witness: the amended characterization applied at `x.JPG?w=2`,
whose lowercase form has its first `.jpg` occurrence at index 1. -/
theorem C2_witness :
    Root.strip_to_jpg ("x.JPG?w=2".toList) = ("x.JPG?w=2".toList).take 5 :=
  (C2_amended_thm ("x.JPG?w=2".toList)).1 1 (by decide) (by decide)

theorem isPre_slashes_https (u : Str) :
    isPre ("//".toList) (("https:".toList) ++ u) = false := rfl

theorem normalize_pos {u : Str} (hp : isPre ("//".toList) u = true) :
    Root.normalize u = ("https:".toList) ++ u := by
  unfold Root.normalize
  rw [hp, if_pos rfl]

theorem normalize_neg {u : Str} (hp : isPre ("//".toList) u = false) :
    Root.normalize u = u := by
  unfold Root.normalize
  rw [hp, if_neg (by simp)]

/-- C7 counterexample: the claim says the normalizer resolves relative
URLs against the page's base URL, but `normalize` has no base-URL rule at
all: a relative URL passes through unchanged and the result contains no
scheme separator, so it is not absolute. -/
theorem C7_counterexample :
    Root.normalize ("img/a.jpg".toList) = ("img/a.jpg".toList) ∧
    ':' ∉ Root.normalize ("img/a.jpg".toList) := by decide

/-- C7 amended: `normalize` prefixes `https:` to protocol-relative URLs
and leaves every other URL — absolute or relative — unchanged; it is
idempotent, and `normalize("//a/b.jpg") = "https://a/b.jpg"`. -/
theorem C7_amended_thm (u : Str) :
    Root.normalize (Root.normalize u) = Root.normalize u ∧
    (isPre ("//".toList) u = false → Root.normalize u = u) ∧
    (isPre ("//".toList) u = true → Root.normalize u = ("https:".toList) ++ u) ∧
    Root.normalize ("//a/b.jpg".toList) = ("https://a/b.jpg".toList) := by
  refine ⟨?_, fun hp => normalize_neg hp, fun hp => normalize_pos hp, by decide⟩
  cases hp : isPre ("//".toList) u with
  | false => rw [normalize_neg hp, normalize_neg hp]
  | true =>
    rw [normalize_pos hp, normalize_neg (isPre_slashes_https u)]

/-- C7 witness: idempotence at `//a/b.jpg` and pass-through at the
already-absolute `https://z.jpg`. -/
theorem C7_witness :
    Root.normalize (Root.normalize ("//a/b.jpg".toList)) =
      Root.normalize ("//a/b.jpg".toList) ∧
    Root.normalize ("https://z.jpg".toList) = ("https://z.jpg".toList) :=
  ⟨(C7_amended_thm ("//a/b.jpg".toList)).1,
    (C7_amended_thm ("https://z.jpg".toList)).2.1 (by decide)⟩

/-- C5: when no container matches, extraction returns an empty result
instead of failing: `process_html` returns the empty list together with a
single `slider_missing` audit event, and `extract_image_srcs` returns the
empty list; both are total functions, so the miss is non-fatal. -/
theorem C5_thm (doc : Doc) (pageUrl tag cid : Str) (b : Bool)
    (h1 : findById doc ("Product-Slider".toList) = none)
    (h2 : findContainer doc tag cid = none) :
    Ivan.processHtml doc pageUrl =
      ([], [Ivan.logEvent ("slider_missing".toList) pageUrl none none
        (some ("no_slider".toList))
        (some ("Product-Slider element not found".toList))]) ∧
    Root.extract_image_srcs doc tag cid b = [] := by
  constructor
  · unfold Ivan.processHtml
    rw [h1]
  · unfold Root.extract_image_srcs
    rw [h2]

/-- C5 witness: a document whose only container has a different id. -/
theorem C5_witness :
    Ivan.processHtml [⟨("div".toList), ("Other".toList), []⟩] ("p".toList) =
      ([], [Ivan.logEvent ("slider_missing".toList) ("p".toList) none none
        (some ("no_slider".toList))
        (some ("Product-Slider element not found".toList))]) ∧
    Root.extract_image_srcs [⟨("div".toList), ("Other".toList), []⟩]
      ("gallery".toList) ("Main".toList) false = [] :=
  C5_thm [⟨("div".toList), ("Other".toList), []⟩] ("p".toList)
    ("gallery".toList) ("Main".toList) false (by decide) (by decide)

/-- The three-img gallery of the end-to-end scenario in the claim: one img
with only a two-variant srcset, one with a protocol-relative `.png` `src`
carrying a query string, one with only a data-URI `src`. -/
def c1doc : Doc :=
  [{ tag := ("product-slider".toList), id := ("Product-Slider".toList),
     imgs := [
       { src := none, dSrc := none,
         srcset := some ("p1-200.jpg 200w, p1-800.jpg 800w".toList) },
       { src := some ("//cdn/p2.png?v=3".toList), dSrc := none, srcset := none },
       { src := some ("data:image/png;base64,AAAA".toList), dSrc := none,
         srcset := none }] }]

/-- C1 counterexample: neither resolver returns the claimed two entries
`[p1-800.jpg, https://cdn/p2.png]` on the scenario document:
`extract_image_srcs` ignores srcset and does not truncate `.png`, and
`process_html` keeps the query string and the data URI. -/
theorem C1_counterexample :
    Root.extract_image_srcs c1doc ("product-slider".toList)
        ("Product-Slider".toList) false ≠
      [("p1-800.jpg".toList), ("https://cdn/p2.png".toList)] ∧
    (Ivan.processHtml c1doc ("page".toList)).1 ≠
      [("p1-800.jpg".toList), ("https://cdn/p2.png".toList)] := by decide

/-- C1 amended: on the scenario document, `extract_image_srcs` (which
reads only `src`/`d-src` and truncates only at `.jpg`) returns the single
entry `https://cdn/p2.png?v=3`, while `process_html` returns three
entries: the srcset winner `p1-800.jpg`, the untruncated
`https://cdn/p2.png?v=3`, and the data URI (which it does not skip). -/
theorem C1_amended_thm :
    Root.extract_image_srcs c1doc ("product-slider".toList)
        ("Product-Slider".toList) false =
      [("https://cdn/p2.png?v=3".toList)] ∧
    (Ivan.processHtml c1doc ("page".toList)).1 =
      [("p1-800.jpg".toList), ("https://cdn/p2.png?v=3".toList),
        ("data:image/png;base64,AAAA".toList)] := by decide

/-- The network oracle of the C6 counterexample: the base URL answers
HTTP 500 with a valid image body, every other URL answers HTTP 200. -/
def c6fetch : Str → Ivan.Resp := fun u =>
  if u = ("http://x/i.jpg".toList) then ⟨500, ("image/jpeg".toList), 600⟩
  else ⟨200, ("image/jpeg".toList), 600⟩

/-- C6 counterexample: the first attempt returns the non-success status
500 (a validation failure per the claim) and a distinct alternate URL
exists, yet the download loop does not retry — its retry trigger tests
for status 404 specifically — and the attempt is recorded as a failure
without any fallback. -/
theorem C6_counterexample :
    (c6fetch (Ivan.httpify ("http://x/i.jpg".toList))).status = 500 ∧
    ("http://x/i.jpg?v=1".toList) ≠ Ivan.httpify ("http://x/i.jpg".toList) ∧
    Ivan.downloadAttempt c6fetch ("http://x/i.jpg".toList)
      ("http://x/i.jpg?v=1".toList) = ⟨false, false⟩ := by decide

/-- C6 amended: the retry trigger is HTTP status exactly 404, a
content-type not starting with `image`, or a body under 500 bytes (not
every non-success status); when it fires and the original
query-preserving URL differs from the base URL, exactly one retry against
that URL happens, and a fallback response with status 200 and an `image`
content-type makes the attempt succeed with the fallback used. -/
theorem C6_amended_thm (fetch : Str → Ivan.Resp) (b orig : Str)
    (h1 : Ivan.validationFails (fetch (Ivan.httpify b)) = true)
    (h2 : orig ≠ Ivan.httpify b) :
    (Ivan.downloadAttempt fetch b orig).usedFallback = true ∧
    ((fetch (Ivan.httpify orig)).status = 200 →
      isPre ("image".toList) (fetch (Ivan.httpify orig)).contentType = true →
      500 ≤ (fetch (Ivan.httpify orig)).size →
      (Ivan.downloadAttempt fetch b orig).succeeded = true) := by
  simp only [Ivan.downloadAttempt]
  rw [h1, if_pos rfl, if_pos h2]
  refine ⟨rfl, ?_⟩
  intro hst himg _
  have hne : ¬ (400 ≤ (fetch (Ivan.httpify orig)).status ∧
      (fetch (Ivan.httpify orig)).status < 600) := by
    rw [hst]
    omega
  show (if 400 ≤ (fetch (Ivan.httpify orig)).status ∧
        (fetch (Ivan.httpify orig)).status < 600 then false
      else isPre ("image".toList) (fetch (Ivan.httpify orig)).contentType) = true
  rw [if_neg hne]
  exact himg

/-- C6 witness: first attempt 404 on the base URL, fallback 200 with an
image content-type and a 600-byte body on the original URL. -/
theorem C6_witness :
    (Ivan.downloadAttempt
      (fun u => if u = ("http://x/i.jpg".toList)
        then ⟨404, ("text/html".toList), 120⟩
        else ⟨200, ("image/jpeg".toList), 600⟩)
      ("http://x/i.jpg".toList) ("http://x/i.jpg?v=1".toList)).usedFallback = true ∧
    (Ivan.downloadAttempt
      (fun u => if u = ("http://x/i.jpg".toList)
        then ⟨404, ("text/html".toList), 120⟩
        else ⟨200, ("image/jpeg".toList), 600⟩)
      ("http://x/i.jpg".toList) ("http://x/i.jpg?v=1".toList)).succeeded = true := by
  have h := C6_amended_thm
    (fun u => if u = ("http://x/i.jpg".toList)
      then ⟨404, ("text/html".toList), 120⟩
      else ⟨200, ("image/jpeg".toList), 600⟩)
    ("http://x/i.jpg".toList) ("http://x/i.jpg?v=1".toList)
    (by decide) (by decide)
  exact ⟨h.1, h.2 (by decide) (by decide) (by decide)⟩

/-- The failing document for C9: a gallery with two distinct image URLs. -/
def c9doc : Doc :=
  [{ tag := ("div".toList), id := ("Product-Slider".toList),
     imgs := [
       { src := some ("//a/1.jpg".toList), dSrc := none, srcset := none },
       { src := some ("//a/2.jpg".toList), dSrc := none, srcset := none }] }]

/-- C9: extraction.py collects this (deterministic) list of URLs, but its
download loop then iterates `set(image_urls)`, which only determines the
enumeration up to permutation: the reversed enumeration covers exactly
the same set while being a different sequence, so the downloaded-file
order (and the `image_<index>.jpg` numbering) is not reproducible across
interpreter runs with different hash seeds. -/
theorem C9_bug_thm :
    Legacy.image_urls c9doc =
      [("https://a/1.jpg".toList), ("https://a/2.jpg".toList)] ∧
    [("https://a/2.jpg".toList), ("https://a/1.jpg".toList)].Perm
      (Legacy.image_urls c9doc) ∧
    [("https://a/2.jpg".toList), ("https://a/1.jpg".toList)] ≠
      Legacy.image_urls c9doc := by
  refine ⟨by decide, ?_, by decide⟩
  have h : Legacy.image_urls c9doc =
      [("https://a/1.jpg".toList), ("https://a/2.jpg".toList)] := by decide
  rw [h]
  exact List.Perm.swap _ _ _

/-- The maximal width among parsed srcset entries. -/
def wMax (l : List (Str × Nat)) : Nat := l.foldr (fun e m => max e.2 m) 0

theorem wMax_cons (x : Str × Nat) (t : List (Str × Nat)) :
    wMax (x :: t) = max x.2 (wMax t) := rfl

theorem chooseLoop_seeded (l : List (Str × Nat)) :
    ∀ (u : Str) (w : Nat),
      (Ivan.chooseLoop (some u) (w : Int) l).1 =
        if w < wMax l then (l.find? (fun e => e.2 == wMax l)).map Prod.fst
        else some u := by
  induction l with
  | nil =>
    intro u w
    simp [Ivan.chooseLoop, wMax]
  | cons x t ih =>
    intro u w
    rcases x with ⟨xu, xw⟩
    simp only [Ivan.chooseLoop]
    by_cases hxw : w < xw
    · rw [if_pos (by exact_mod_cast hxw : ((xw : Nat) : Int) > (w : Int))]
      rw [ih xu xw]
      by_cases hmt : xw < wMax t
      · have hc : wMax ((xu, xw) :: t) = wMax t := by
          rw [wMax_cons]
          omega
        rw [if_pos hmt, if_pos (by rw [hc]; omega), hc,
          List.find?_cons_of_neg _ (by simp; omega)]
      · have hc : wMax ((xu, xw) :: t) = xw := by
          rw [wMax_cons]
          omega
        rw [if_neg hmt, if_pos (by rw [hc]; omega), hc,
          List.find?_cons_of_pos _ (by simp)]
        rfl
    · rw [if_neg (by exact_mod_cast hxw : ¬ ((xw : Nat) : Int) > (w : Int))]
      rw [ih u w]
      by_cases hmt : w < wMax t
      · have hc : wMax ((xu, xw) :: t) = wMax t := by
          rw [wMax_cons]
          omega
        rw [if_pos hmt, if_pos (by rw [hc]; omega), hc,
          List.find?_cons_of_neg _ (by simp; omega)]
      · rw [if_neg hmt, if_neg (by rw [wMax_cons]; omega)]

theorem ivanChoose_first_max (s : Str) :
    Ivan.ivanChoose s =
      ((Ivan.parseEntries s).find?
        (fun e => e.2 == wMax (Ivan.parseEntries s))).map Prod.fst := by
  unfold Ivan.ivanChoose
  cases hpe : Ivan.parseEntries s with
  | nil => simp [Ivan.chooseLoop]
  | cons x t =>
    rcases x with ⟨xu, xw⟩
    simp only [Ivan.chooseLoop]
    rw [if_pos (by omega : ((xw : Nat) : Int) > (-1 : Int))]
    rw [chooseLoop_seeded t xu xw]
    by_cases hmt : xw < wMax t
    · have hc : wMax ((xu, xw) :: t) = wMax t := by
        rw [wMax_cons]
        omega
      rw [if_pos hmt, hc, List.find?_cons_of_neg _ (by simp; omega)]
    · have hc : wMax ((xu, xw) :: t) = xw := by
        rw [wMax_cons]
        omega
      rw [if_neg hmt, hc, List.find?_cons_of_pos _ (by simp)]
      rfl

/-- C3 counterexample: the claim assigns width 0 to an entry without a
parseable `<digits>w` descriptor, which would make `b.jpg` (800w) win;
but `parse_width` falls back to the `width=` query parameter, so the
entry `a.jpg?width=900` gets width 900 and is selected instead. -/
theorem C3_counterexample :
    Ivan.ivanChoose ("a.jpg?width=900, b.jpg 800w".toList) =
      some ("a.jpg?width=900".toList) ∧
    Ivan.ivanChoose ("a.jpg?width=900, b.jpg 800w".toList) ≠
      some ("b.jpg".toList) := by decide

/-- C3 amended: the resolver selects the first entry (in document order)
whose parsed width is maximal — so strictly-greatest width wins and ties
keep the first-seen entry — but an entry without a parseable `<digits>w`
descriptor gets the width of the first `width=` query parameter of its
URL when present, and 0 only otherwise; the claim's two examples hold. -/
theorem C3_amended_thm (s : Str) :
    Ivan.ivanChoose s =
      ((Ivan.parseEntries s).find?
        (fun e => e.2 == wMax (Ivan.parseEntries s))).map Prod.fst ∧
    Ivan.ivanChoose ("x400.jpg 400w, x1200.jpg 1200w".toList) =
      some ("x1200.jpg".toList) ∧
    Ivan.ivanChoose ("a.jpg 800w, b.jpg 800w".toList) = some ("a.jpg".toList) :=
  ⟨ivanChoose_first_max s, by decide, by decide⟩

theorem firstIdx_cons (b : Str) (t : List Str) (a : Str) :
    firstIdx (b :: t) a = if b = a then 0 else firstIdx t a + 1 := rfl

theorem firstIdx_append_left {a : Str} {l1 : List Str} (l2 : List Str) (h : a ∈ l1) :
    firstIdx (l1 ++ l2) a = firstIdx l1 a := by
  induction l1 with
  | nil => cases h
  | cons b t ih =>
    rw [List.cons_append, firstIdx_cons, firstIdx_cons]
    by_cases hba : b = a
    · rw [if_pos hba, if_pos hba]
    · rw [if_neg hba, if_neg hba]
      rcases List.mem_cons.mp h with heq | hmem
      · exact absurd heq.symm hba
      · rw [ih hmem]

theorem firstIdx_append_miss {a : Str} {l1 : List Str} (l2 : List Str) (h : a ∉ l1) :
    firstIdx (l1 ++ l2) a = l1.length + firstIdx l2 a := by
  induction l1 with
  | nil => simp
  | cons b t ih =>
    rw [List.cons_append, firstIdx_cons, List.length_cons]
    have hba : ¬ b = a := by
      intro heq
      exact h (by rw [heq]; exact List.mem_cons_self a t)
    rw [if_neg hba, ih (fun hm => h (List.mem_cons_of_mem b hm))]
    omega

theorem firstIdx_lt_length {a : Str} {l : List Str} (h : a ∈ l) :
    firstIdx l a < l.length := by
  induction l with
  | nil => cases h
  | cons b t ih =>
    rw [firstIdx_cons, List.length_cons]
    by_cases hba : b = a
    · rw [if_pos hba]
      omega
    · rw [if_neg hba]
      rcases List.mem_cons.mp h with heq | hmem
      · exact absurd heq.symm hba
      · have := ih hmem
        omega

theorem dedupFold_go (ks : List Str) :
    ∀ (pre acc seen full : List Str),
      full = pre ++ ks →
      (∀ x, x ∈ acc ↔ x ∈ seen) →
      (∀ x, x ∈ acc ↔ x ∈ pre) →
      acc.Nodup →
      acc.Pairwise (fun a b => firstIdx full a < firstIdx full b) →
      (ks.foldl Root.dedupStep (acc, seen)).1.Nodup ∧
      (∀ x, x ∈ (ks.foldl Root.dedupStep (acc, seen)).1 ↔ x ∈ full) ∧
      (ks.foldl Root.dedupStep (acc, seen)).1.Pairwise
        (fun a b => firstIdx full a < firstIdx full b) := by
  induction ks with
  | nil =>
    intro pre acc seen full hfull h1 h2 hnd hpw
    rw [List.append_nil] at hfull
    subst hfull
    simp only [List.foldl_nil]
    exact ⟨hnd, h2, hpw⟩
  | cons k t ih =>
    intro pre acc seen full hfull h1 h2 hnd hpw
    simp only [List.foldl_cons]
    by_cases hk : k ∈ seen
    · have hstep : Root.dedupStep (acc, seen) k = (acc, seen) := by
        unfold Root.dedupStep
        rw [if_pos hk]
      rw [hstep]
      apply ih (pre ++ [k]) acc seen full
      · rw [hfull]
        simp
      · exact h1
      · intro x
        rw [h2 x]
        constructor
        · intro hx
          exact List.mem_append_left _ hx
        · intro hx
          rcases List.mem_append.mp hx with hx | hx
          · exact hx
          · have hxk : x = k := by simpa using hx
            subst hxk
            exact (h2 x).mp ((h1 x).mpr hk)
      · exact hnd
      · exact hpw
    · have hstep : Root.dedupStep (acc, seen) k = (acc ++ [k], k :: seen) := by
        unfold Root.dedupStep
        rw [if_neg hk]
      rw [hstep]
      have hka : k ∉ acc := fun hmem => hk ((h1 k).mp hmem)
      have hkp : k ∉ pre := fun hmem => hka ((h2 k).mpr hmem)
      apply ih (pre ++ [k]) (acc ++ [k]) (k :: seen) full
      · rw [hfull]
        simp
      · intro x
        simp only [List.mem_append, List.mem_singleton, List.mem_cons]
        rw [h1 x]
        tauto
      · intro x
        simp only [List.mem_append, List.mem_singleton]
        rw [h2 x]
      · simp only [List.nodup_append, List.nodup_singleton, true_and]
        exact ⟨hnd, by simpa using hka⟩
      · rw [List.pairwise_append]
        refine ⟨hpw, by simp, ?_⟩
        intro a ha b hb
        have hbk : b = k := by simpa using hb
        subst hbk
        have hap : a ∈ pre := (h2 a).mp ha
        have hia : firstIdx full a = firstIdx pre a := by
          rw [hfull]
          exact firstIdx_append_left _ hap
        have hib : firstIdx full b = pre.length := by
          rw [hfull, firstIdx_append_miss _ hkp]
          simp [firstIdx]
        rw [hia, hib]
        exact firstIdx_lt_length hap

theorem extract_eq_none {doc : Doc} {tag cid : Str} {b : Bool}
    (h : findContainer doc tag cid = none) :
    Root.extract_image_srcs doc tag cid b = [] := by
  unfold Root.extract_image_srcs
  rw [h]

theorem extract_eq_some {doc : Doc} {tag cid : Str} {b : Bool} {c : Container}
    (h : findContainer doc tag cid = some c) :
    Root.extract_image_srcs doc tag cid b =
      ((c.imgs.flatMap (Root.candidatesOf b)).foldl
        (fun st cand => Root.dedupStep st (Root.keyOf cand)) ([], [])).1 := by
  unfold Root.extract_image_srcs
  rw [h]

theorem keyStream_eq_none {doc : Doc} {tag cid : Str} {b : Bool}
    (h : findContainer doc tag cid = none) :
    Root.keyStream doc tag cid b = [] := by
  unfold Root.keyStream
  rw [h]

theorem keyStream_eq_some {doc : Doc} {tag cid : Str} {b : Bool} {c : Container}
    (h : findContainer doc tag cid = some c) :
    Root.keyStream doc tag cid b =
      (c.imgs.flatMap (Root.candidatesOf b)).map Root.keyOf := by
  unfold Root.keyStream
  rw [h]

theorem foldl_key_eq (cands : List Str) :
    cands.foldl (fun st cand => Root.dedupStep st (Root.keyOf cand))
        (([] : List Str), ([] : List Str)) =
      (cands.map Root.keyOf).foldl Root.dedupStep ([], []) :=
  (List.foldl_map Root.keyOf Root.dedupStep cands ([], [])).symm

/-- C8: the deduplicating resolver returns pairwise-distinct canonical
keys (`Nodup`), exactly the keys of the document-order candidate scan
(`keyStream`), enumerated so that first-occurrence positions in that scan
are strictly increasing — i.e. in first-seen order. -/
theorem C8_thm (doc : Doc) (tag cid : Str) (b : Bool) :
    (Root.extract_image_srcs doc tag cid b).Nodup ∧
    (∀ x, x ∈ Root.extract_image_srcs doc tag cid b ↔
      x ∈ Root.keyStream doc tag cid b) ∧
    (Root.extract_image_srcs doc tag cid b).Pairwise
      (fun a c => firstIdx (Root.keyStream doc tag cid b) a <
        firstIdx (Root.keyStream doc tag cid b) c) := by
  cases hf : findContainer doc tag cid with
  | none =>
    rw [extract_eq_none hf, keyStream_eq_none hf]
    exact ⟨List.nodup_nil, by simp, List.Pairwise.nil⟩
  | some c =>
    rw [extract_eq_some hf, keyStream_eq_some hf, foldl_key_eq]
    exact dedupFold_go ((c.imgs.flatMap (Root.candidatesOf b)).map Root.keyOf)
      [] [] [] _ (List.nil_append _).symm (by simp) (by simp)
      List.nodup_nil List.Pairwise.nil

theorem fallback_no_data (src : Option Str) (cand : Str)
    (h : cand ∈ Root.fallbackSrc src) : isPre ("data:".toList) cand = false := by
  cases src with
  | none => simp [Root.fallbackSrc] at h
  | some s =>
    simp only [Root.fallbackSrc] at h
    by_cases hcond : s ≠ [] ∧ isPre ("data:".toList) s = false
    · rw [if_pos hcond] at h
      have hcs : cand = s := by simpa using h
      subst hcs
      exact hcond.2
    · rw [if_neg hcond] at h
      simp at h

theorem bothSrc_no_data (b : Bool) (d : Str) (src : Option Str) (cand : Str)
    (h : cand ∈ Root.bothSrc b d src) : isPre ("data:".toList) cand = false := by
  cases src with
  | none => simp [Root.bothSrc] at h
  | some s =>
    simp only [Root.bothSrc] at h
    by_cases hcond : b = true ∧ s ≠ [] ∧ isPre ("data:".toList) s = false ∧ s ≠ d
    · rw [if_pos hcond] at h
      have hcs : cand = s := by simpa using h
      subst hcs
      exact hcond.2.2.1
    · rw [if_neg hcond] at h
      simp at h

theorem candidates_no_data (b : Bool) (img : Img) :
    ∀ cand ∈ Root.candidatesOf b img, isPre ("data:".toList) cand = false := by
  intro cand hc
  rcases img with ⟨src, dSrc, srcset⟩
  cases dSrc with
  | none =>
    simp only [Root.candidatesOf] at hc
    exact fallback_no_data src cand hc
  | some d =>
    simp only [Root.candidatesOf] at hc
    by_cases hcond : d ≠ [] ∧ isPre ("data:".toList) d = false
    · rw [if_pos hcond] at hc
      rcases List.mem_append.mp hc with hd | hs
      · have hcd : cand = d := by simpa using hd
        subst hcd
        exact hcond.2
      · exact bothSrc_no_data b d src cand hs
    · rw [if_neg hcond] at hc
      exact fallback_no_data src cand hc

theorem normalize_no_data {u : Str} (h : isPre ("data:".toList) u = false) :
    isPre ("data:".toList) (Root.normalize u) = false := by
  cases hp : isPre ("//".toList) u with
  | false =>
    rw [normalize_neg hp]
    exact h
  | true =>
    rw [normalize_pos hp]
    rfl

theorem strip_no_data {u : Str} (h : isPre ("data:".toList) u = false) :
    isPre ("data:".toList) (Root.strip_to_jpg u) = false := by
  cases hf : findSub (".jpg".toList) (lowerStr u) with
  | none =>
    rw [strip_eq_of_none hf]
    exact h
  | some i =>
    rw [strip_eq_of_some hf]
    cases hp : isPre ("data:".toList) (u.take (i + 4)) with
    | false => rfl
    | true =>
      have hocc := ipo_of_take hp
      rw [h] at hocc
      simp at hocc

theorem keyOf_no_data {u : Str} (h : isPre ("data:".toList) u = false) :
    isPre ("data:".toList) (Root.keyOf u) = false :=
  strip_no_data (normalize_no_data h)

/-- The single-img document of the C4 counterexample: only a data-URI
`src`, no srcset and no lazy attribute. -/
def c4doc : Doc :=
  [{ tag := ("div".toList), id := ("Product-Slider".toList),
     imgs := [{ src := some ("data:image/png;base64,AAAA".toList), dSrc := none,
                srcset := none }] }]

/-- C4 counterexample: `process_html` does not skip data URIs — an img
whose only candidate is a data-URI `src` contributes that data URI as an
entry of the extraction result. -/
theorem C4_counterexample :
    ("data:image/png;base64,AAAA".toList) ∈ (Ivan.processHtml c4doc ("p".toList)).1 ∧
    isPre ("data:".toList) ("data:image/png;base64,AAAA".toList) = true := by decide

/-- C4 amended: in `extract_image_srcs` (extraction_dynamic.py) the claim
holds — no collected entry ever starts with `data:`, so a data-URI-only
img is excluded entirely; `process_html` of Ivan/Temp/extraction.py,
however, collects a data-URI `src` when no srcset entry parsed. -/
theorem C4_amended_thm (doc : Doc) (tag cid : Str) (b : Bool) (s : Str)
    (hs : s ∈ Root.extract_image_srcs doc tag cid b) :
    isPre ("data:".toList) s = false := by
  cases hf : findContainer doc tag cid with
  | none =>
    rw [extract_eq_none hf] at hs
    cases hs
  | some c =>
    rw [extract_eq_some hf, foldl_key_eq] at hs
    have hgo := dedupFold_go ((c.imgs.flatMap (Root.candidatesOf b)).map Root.keyOf)
      [] [] [] _ (List.nil_append _).symm (by simp) (by simp)
      List.nodup_nil List.Pairwise.nil
    have hks := (hgo.2.1 s).mp hs
    rcases List.mem_map.mp hks with ⟨cand, hcand, rfl⟩
    rcases List.mem_flatMap.mp hcand with ⟨img, _, hcin⟩
    exact keyOf_no_data (candidates_no_data b img cand hcin)

/-- The witness document for C4: one img with a protocol-relative jpg. -/
def c4wdoc : Doc :=
  [{ tag := ("t".toList), id := ("i".toList),
     imgs := [{ src := some ("//a/x.jpg".toList), dSrc := none, srcset := none }] }]

/-- C4 witness: the amended statement applied to the collected entry
`https://a/x.jpg` of the witness document. -/
theorem C4_witness : isPre ("data:".toList) ("https://a/x.jpg".toList) = false :=
  C4_amended_thm c4wdoc ("t".toList) ("i".toList) false
    ("https://a/x.jpg".toList) (by decide)
